import Mathlib

/-!
Verification of the PathoGenX repository's specification against a shallow
embedding of its source code.

Each definition below is translated from a specific function of the source
(file and line references given in doc comments).  Python floats are
modelled by real numbers, pandas tables by explicit list/record structures,
scipy sparse matrices by dense functions `Fin n → Fin n → ℚ` (an absent or
zero entry of the sparse matrix means "no recorded distance"), and raised
exceptions by `Except` error values.
-/

/-! ## Definitions -/

/-! ### Wilson score interval (`src/pathogenx/calculators.py`, `_wilson_score_interval`, lines 242-264)

The source computes, per row, with `z = norm.ppf(1 - 0.05/2)` (the 97.5%
standard-normal quantile, a positive real constant ≈ 1.959964):
`prop = (counts / denominators).clip(0, 1)`,
`se = sqrt(prop*(1-prop)/denominators)`,
`center = (counts + z**2/2) / (denominators + z**2)`,
`width = (z/(denominators + z**2)) * sqrt(prop*(1-prop)*denominators + z**2/4)`,
returning `(prop, se, center - width, center + width)`.
The quantile constant cannot be written in closed form, so `z` is a
parameter here; every theorem assumes only `0 < z`, which holds for it. -/

/-- pandas `x.clip(lo, hi)`: values capped below at `lo` and above at `hi`. -/
def clip (x lo hi : ℝ) : ℝ := min (max x lo) hi

/-- Shallow embedding of `_wilson_score_interval` (calculators.py lines 242-264),
per scalar entry: returns `(prop, se, lower, upper)`. -/
noncomputable def wilson_score_interval (counts denominators z : ℝ) : ℝ × ℝ × ℝ × ℝ :=
  let prop := clip (counts / denominators) 0 1
  let se := Real.sqrt (prop * (1 - prop) / denominators)
  let center := (counts + z ^ 2 / 2) / (denominators + z ^ 2)
  let width := (z / (denominators + z ^ 2)) * Real.sqrt (prop * (1 - prop) * denominators + z ^ 2 / 4)
  (prop, se, center - width, center + width)

/-- The Wilson formulas exactly as the specification's §4.5 code block writes
them (`p = clip(k/n,0,1)`, `se = sqrt(p*(1-p)/n)`, `center = (k+z²/2)/(n+z²)`,
`width = (z/(n+z²))*sqrt(p*(1-p)*n + z²/4)`, `lower = center-width`,
`upper = center+width`), for comparison with the source embedding. -/
noncomputable def wilson_spec (k n z : ℝ) : ℝ × ℝ × ℝ × ℝ :=
  let p := clip (k / n) 0 1
  let se := Real.sqrt (p * (1 - p) / n)
  let center := (k + z ^ 2 / 2) / (n + z ^ 2)
  let width := (z / (n + z ^ 2)) * Real.sqrt (p * (1 - p) * n + z ^ 2 / 4)
  (p, se, center - width, center + width)

/-! ### Distance file reader (`src/pathogenx/io.py`, class `DistFile`, lines 132-205) -/

/-- The parse parameters a `DistFile` is constructed with
(io.py lines 134-151): matrix shape, separator, columns used for the long
shape, and the caller-declared symmetry flag. -/
structure DistFileConfig where
  shape : String
  sep : String
  usecols : ℕ × ℕ × ℕ
  symmetrical : Bool
deriving Repr, DecidableEq

/-- Shallow embedding of `DistFile.from_flavour` (io.py lines 181-205).
The source's chain of branches is translated literally, including the
duplicated `elif flavour == 'ska1'` test on lines 197 and 199, which makes
the `(0, 1, 2)` branch unreachable, so the string `"ska2"` (a declared
member of `_DIST_FLAVOURS`) falls through to the `else` and raises
`ValueError`.  Constructor defaults (io.py lines 134-135): `shape='long'`,
`sep='\t'`, `usecols=(0,1,2)`, `symmetrical=True`. -/
def distFile_from_flavour (flavour : String) : Except String DistFileConfig :=
  if flavour = "mash" then .ok ⟨"long", "\t", (0, 1, 3), true⟩
  else if flavour = "ska1" then .ok ⟨"long", "\t", (0, 1, 6), true⟩
  else if flavour = "ska1" then .ok ⟨"long", "\t", (0, 1, 2), true⟩
  else if flavour = "pw-dist" then .ok ⟨"square", ",", (0, 1, 2), true⟩
  else .error s!"Unknown flavour: {flavour}"

/-- Shallow embedding of the `shape == 'square'` branch of `DistFile.load`
(io.py lines 163-168), starting from the already-parsed numeric matrix `df`
(the result of `pd.read_table(..., index_col=0)`) and its column headers
`names`.  The source replaces the matrix by the elementwise maximum with its
transpose only when `self.symmetrical` is `False`; it never inspects the
parsed values for actual symmetry. -/
def distFile_load_square {m : ℕ} (symmetrical : Bool) (df : Fin m → Fin m → ℚ)
    (names : List String) : (Fin m → Fin m → ℚ) × List String :=
  let matrix := df
  let matrix := if ¬symmetrical then fun i j => max (matrix i j) (matrix j i) else matrix
  (matrix, names)

/-- The asymmetric 2×2 matrix used as counterexample input: a square
distance file whose parsed body is `[[0, 1], [2, 0]]`. -/
def asym2 : Fin 2 → Fin 2 → ℚ := ![![0, 1], ![2, 0]]

/-! ### Dataset construction (`src/pathogenx/dataset.py`, `Dataset.__init__`, lines 21-44) -/

/-- A pandas DataFrame with a string index, modelled explicitly: a list of
column names and one `(index label, cells)` pair per row, cells aligned
with `cols`; `none` is a missing value (NaN). -/
structure PyTable where
  cols : List String
  rows : List (String × List (Option String))
deriving Repr, DecidableEq

/-- The index of a table (pandas `df.index`), in row order. -/
def PyTable.index (t : PyTable) : List String := t.rows.map Prod.fst

/-- Cell lookup by index label and column name; `none` when the row or the
column is absent or the cell holds NaN. -/
def PyTable.cell (t : PyTable) (s c : String) : Option String :=
  match t.rows.find? (fun r => r.1 == s) with
  | some r => ((r.2.get? (t.cols.indexOf c)).getD none)
  | none => none

/-- dataset.py line 26, `self._data['Dataset'] = name`: stamp a `Dataset`
column holding the collection name onto every row. -/
def addDatasetColumn (t : PyTable) (name : String) : PyTable :=
  ⟨t.cols ++ ["Dataset"], t.rows.map (fun r => (r.1, r.2 ++ [some name]))⟩

/-- dataset.py line 29, `self._data.join(metadata, how='left')`: left join
by index; rows of `t` are kept in order, metadata cells are NaN for index
labels absent from `m`. -/
def leftJoin (t m : PyTable) : PyTable :=
  ⟨t.cols ++ m.cols,
   t.rows.map (fun r =>
     (r.1, r.2 ++ (match m.rows.find? (fun mr => mr.1 == r.1) with
                   | some mr => mr.2
                   | none => m.cols.map (fun _ => none))))⟩

/-- dataset.py line 36, `self._data.reindex(index)`: reorder (and, for
labels missing from the table, NaN-fill) the rows to the given index. -/
def reindexTable (t : PyTable) (idx : List String) : PyTable :=
  ⟨t.cols,
   idx.map (fun s =>
     (s, match t.rows.find? (fun r => r.1 == s) with
         | some r => r.2
         | none => t.cols.map (fun _ => none)))⟩

/-- The Python exceptions that `Dataset` construction and the CLI can
raise, by kind and message. -/
inductive PyErr where
  | datasetError (msg : String)
  | valueError (msg : String)
  | attributeError (msg : String)
deriving Repr, DecidableEq

/-- The state `self._data` reaches after dataset.py lines 25-29 (genotype
base, `Dataset` column stamped, optional left join of metadata): the merged
sample table. -/
def Dataset.mergedTable (genotypes : PyTable) (metadata : Option PyTable)
    (name : String) : PyTable :=
  let d := addDatasetColumn genotypes name
  match metadata with
  | some m => leftJoin d m
  | none => d

/-- Shallow embedding of `Dataset.__init__` (dataset.py lines 21-44).
After the merge, if a distance pair is supplied every sample of the merged
index is checked against the distance index in row order and the first
missing one raises `DatasetError(f'Sample {sample} not in index')` (lines
33-35); then the table is reindexed to the distance order (line 36).
Line 44 then evaluates `self.qc_metrics`, an attribute that is never
assigned anywhere in the class (the `qc_metrics` constructor parameter is
accepted but unused), so every construction that reaches line 44 raises
`AttributeError`; consequently `__init__` never returns normally. -/
def Dataset.init (genotypes : PyTable) (metadata : Option PyTable)
    (distIndex : Option (List String)) (name : String) : Except PyErr PyTable :=
  let d := Dataset.mergedTable genotypes metadata name
  match distIndex with
  | some idx =>
    match d.index.find? (fun s => decide (s ∉ idx)) with
    | some s => .error (.datasetError s!"Sample {s} not in index")
    | none =>
      let _ := reindexTable d idx
      .error (.attributeError "'Dataset' object has no attribute 'qc_metrics'")
  | none => .error (.attributeError "'Dataset' object has no attribute 'qc_metrics'")

/-- Modelled from the spec: dataset.py line 44 computes
`genotype_columns = (genotype_columns or set(genotypes.columns)) - self.qc_metrics - self.metadata_columns`
but `self.qc_metrics` is never assigned, so the expression always raises;
spec §9 resolves the slip by reading `self.qc_metrics` as the `qc_metrics`
constructor parameter (defaulting to the empty set).  This definition is
that intended column partition, with `metadataColumns` already including
the stamped `Dataset` column (dataset.py lines 41-42). -/
def Dataset.genotypeColumnsIntended (genotypeCols qcMetrics metadataCols : Finset String) :
    Finset String :=
  (genotypeCols \ qcMetrics) \ (metadataCols ∪ {"Dataset"})

/-- dataset.py lines 41-42: the metadata column set plus the stamped
`Dataset` column. -/
def Dataset.metadataColumnsOf (metadataCols : Finset String) : Finset String :=
  metadataCols ∪ {"Dataset"}

/-- Concrete genotype table for the Dataset claims: two samples `s1`, `s2`
with one genotype column `ST`. -/
def genoEx : PyTable := ⟨["ST"], [("s1", [some "1"]), ("s2", [some "2"])]⟩

/-- Concrete metadata table covering only sample `s1`, with one column
`Country`. -/
def metaEx : PyTable := ⟨["Country"], [("s1", [some "AU"])]⟩

/-! ### CLI `prevalence` command (`src/pathogenx/cli.py`, `main`, lines 57-88) -/

/-- The attributes defined on the `Dataset` class in dataset.py (its
methods, properties and dunders) — the complete set a `Dataset.<attr>`
lookup can succeed on.  `from_files` is not among them. -/
def datasetClassAttrs : List String :=
  ["__init__", "__repr__", "__len__", "__contains__", "__getitem__", "__iter__",
   "data", "samples", "calculate_clusters"]

/-- Shallow embedding of the `prevalence` branch of `main` (cli.py lines
72-88) up to its first failure point.  The readers are built via the
`from_flavour` factories (the genotype/metadata flavours always succeed for
the argparse-validated choices), then line 83 evaluates
`Dataset.from_files(genotype_file, metadata_file, distance_file)`; no
`from_files` attribute is defined on `Dataset` anywhere in the repository,
so the lookup raises `AttributeError` before any dataset is built, any
clustering runs, or any output is written.  The model takes the
distance-flavour string (to exercise `DistFile.from_flavour` when a
distance path is supplied) and returns the rows that would be written to
stdout on success. -/
def cliPrevalence (distancePathGiven : Bool) (distanceFlavour : String) :
    Except PyErr (List String) :=
  match (if distancePathGiven then (distFile_from_flavour distanceFlavour).map some
         else .ok none) with
  | .error e => .error (.valueError e)
  | .ok _ =>
    if "from_files" ∈ datasetClassAttrs then
      .ok []
    else
      .error (.attributeError "type object 'Dataset' has no attribute 'from_files'")

/-! ### Clustering (`src/pathogenx/dataset.py`, `Dataset.calculate_clusters`, lines 73-146)

The distance matrix is the CSR form of the loaded sparse matrix: the entry
`M i j` is the stored value, `0` meaning "no recorded distance" (explicit
zeros are dropped by `eliminate_zeros`).  For a group with positional
indices `s`, the source takes the induced submatrix, zeroes out every entry
strictly greater than the threshold, drops zeros, and labels connected
components of the remaining graph, treated as undirected
(`connected_components(csgraph=subgraph, directed=False)`), so `i` and `j`
are adjacent when either stored entry `M i j` or `M j i` is nonzero and at
most the threshold.  scipy assigns component labels in scan order of the
submatrix rows: the component containing the smallest unvisited row index
gets the next label, i.e. the component whose minimal member is the k-th
smallest among component minima gets local label `k` (0-based).  The
embedding computes the same labels through each vertex's reachable set:
`rep` is the minimal reachable vertex and `localLabel` counts the distinct
smaller representatives.  Group rows keep the dataset's row order, so
minimal submatrix position and minimal `Fin n` index agree.  Groups are
processed in ascending key order (pandas `groupby` sorts keys) with the
running counter starting at `1` and advancing by `local_labels.max() + 1`
(= the group's component count) per group, which the embedding folds into
the closed-form `groupOffset`. -/

/-- A stored entry survives the threshold filter
(`subgraph.data[subgraph.data > distance] = 0; subgraph.eliminate_zeros()`,
dataset.py lines 132-133): it is nonzero and at most the threshold. -/
def keepEdge {n : ℕ} (M : Fin n → Fin n → ℚ) (t : ℚ) (i j : Fin n) : Prop :=
  M i j ≠ 0 ∧ M i j ≤ t

instance {n : ℕ} (M : Fin n → Fin n → ℚ) (t : ℚ) (i j : Fin n) :
    Decidable (keepEdge M t i j) :=
  inferInstanceAs (Decidable (_ ∧ _))

/-- Undirected adjacency (dataset.py line 135, `directed=False`): either
stored direction survives the threshold filter. -/
def adjEdge {n : ℕ} (M : Fin n → Fin n → ℚ) (t : ℚ) (i j : Fin n) : Prop :=
  keepEdge M t i j ∨ keepEdge M t j i

instance {n : ℕ} (M : Fin n → Fin n → ℚ) (t : ℚ) (i j : Fin n) :
    Decidable (adjEdge M t i j) :=
  inferInstanceAs (Decidable (_ ∨ _))

/-- Adjacency inside a group's induced submatrix (dataset.py line 131):
both endpoints belong to the group and the edge survives the filter. -/
def adjIn {n : ℕ} (s : Finset (Fin n)) (M : Fin n → Fin n → ℚ) (t : ℚ) (i j : Fin n) : Prop :=
  i ∈ s ∧ j ∈ s ∧ adjEdge M t i j

instance {n : ℕ} (s : Finset (Fin n)) (M : Fin n → Fin n → ℚ) (t : ℚ) (i j : Fin n) :
    Decidable (adjIn s M t i j) :=
  inferInstanceAs (Decidable (_ ∧ _ ∧ _))

/-- One breadth-first expansion step of a set of visited vertices along the
group's surviving edges. -/
def stepSet {n : ℕ} (s : Finset (Fin n)) (M : Fin n → Fin n → ℚ) (t : ℚ)
    (A : Finset (Fin n)) : Finset (Fin n) :=
  A ∪ s.filter (fun j => ∃ a ∈ A, adjIn s M t a j)

/-- The set of vertices reachable from `i` inside group `s` (the
connected component of `i` in the thresholded subgraph); `n` expansion
steps saturate on `Fin n`. -/
def reachSet {n : ℕ} (s : Finset (Fin n)) (M : Fin n → Fin n → ℚ) (t : ℚ)
    (i : Fin n) : Finset (Fin n) :=
  (stepSet s M t)^[n] {i}

/-- The representative of `i`'s component: its minimal member (`i` is
inserted so the set is visibly nonempty; it is in fact always reachable). -/
def rep {n : ℕ} (s : Finset (Fin n)) (M : Fin n → Fin n → ℚ) (t : ℚ) (i : Fin n) : Fin n :=
  (insert i (reachSet s M t i)).min' (Finset.insert_nonempty _ _)

/-- The scipy local component label of `i` within group `s`: the number of
distinct component representatives smaller than `i`'s. -/
def localLabel {n : ℕ} (s : Finset (Fin n)) (M : Fin n → Fin n → ℚ) (t : ℚ) (i : Fin n) : ℕ :=
  ((s.filter (fun w => rep s M t w < rep s M t i)).image (rep s M t)).card

/-- The number of connected components of group `s`
(`local_labels.max() + 1` on a nonempty group). -/
def numComponents {n : ℕ} (s : Finset (Fin n)) (M : Fin n → Fin n → ℚ) (t : ℚ) : ℕ :=
  (s.image (rep s M t)).card

/-- The group of rows whose `group_by` key is `k` (pandas `groupby`
partitions rows by key; the key is abstracted as a natural number since
`groupby` only needs equality and the sorted processing order). -/
def groupSet {n : ℕ} (key : Fin n → ℕ) (k : ℕ) : Finset (Fin n) :=
  Finset.univ.filter (fun i => key i = k)

/-- The value of `global_cluster_counter` (dataset.py lines 118, 139) when
the group with key `k` is processed: groups are visited in ascending key
order, the counter starts at 1 and advances by each earlier group's
component count. -/
def groupOffset {n : ℕ} (M : Fin n → Fin n → ℚ) (t : ℚ) (key : Fin n → ℕ) (k : ℕ) : ℕ :=
  1 + ∑ k' ∈ (Finset.univ.image key).filter (fun k' => k' < k),
        numComponents (groupSet key k') M t

/-- The cluster number assigned to sample `i` by a grouped
connected-components run (dataset.py line 138,
`f"cluster_{l + global_cluster_counter}"` with `l` the scipy local
label). -/
def ccNumber {n : ℕ} (M : Fin n → Fin n → ℚ) (t : ℚ) (key : Fin n → ℕ) (i : Fin n) : ℕ :=
  localLabel (groupSet key (key i)) M t i + groupOffset M t key (key i)

/-- The cluster number assigned to sample `i` when no `group_by` is given:
the source uses the single group `[('all', self._data)]` (dataset.py line
121) covering every row, with the counter at its initial value 1. -/
def ccNumberAll {n : ℕ} (M : Fin n → Fin n → ℚ) (t : ℚ) (i : Fin n) : ℕ :=
  localLabel Finset.univ M t i + 1

/-- Shallow embedding of `Dataset.calculate_clusters` (dataset.py lines
73-146): dispatch on `method`, returning the `Cluster` column (one label
string per sample, in row order).  `'variables'` with a `group_by` numbers
the distinct key combinations in sorted order (`ngroup() + 1`), without one
each row is its own cluster `cluster_{i+1}`; `'connected_components'`
requires a distance matrix (else `DatasetError`) and labels components as
above; any other method raises `ValueError(f"Unknown method: {method}")`.
(The non-fatal overwrite warning for an existing `Cluster` column is not
modelled.) -/
def calculate_clusters (n : ℕ) (dist : Option (Fin n → Fin n → ℚ)) (method : String)
    (groupBy : Option (Fin n → ℕ)) (distance : ℚ) : Except PyErr (List String) :=
  if method = "variables" then
    match groupBy with
    | some key => .ok ((List.finRange n).map (fun i =>
        "cluster_" ++ toString (((Finset.univ.image key).filter (fun k => k < key i)).card + 1)))
    | none => .ok ((List.finRange n).map (fun i => "cluster_" ++ toString (i.val + 1)))
  else if method = "connected_components" then
    match dist with
    | none => .error (.datasetError
        "Cannot calculate connected components: no distance matrix found in Dataset.")
    | some M =>
      match groupBy with
      | some key => .ok ((List.finRange n).map (fun i =>
          "cluster_" ++ toString (ccNumber M distance key i)))
      | none => .ok ((List.finRange n).map (fun i =>
          "cluster_" ++ toString (ccNumberAll M distance i)))
  else .error (.valueError s!"Unknown method: {method}")

/-- The claim's three-sample distance matrix: d(A,B)=5, d(B,C)=5,
d(A,C)=15 (symmetric, zero diagonal = no recorded self-distance). -/
def M3 : Fin 3 → Fin 3 → ℚ := ![![0, 5, 15], ![5, 0, 5], ![15, 5, 0]]

/-- A four-sample matrix with no surviving edge at threshold 5 (every
recorded distance is 10), so each group decomposes into singletons. -/
def M4 : Fin 4 → Fin 4 → ℚ := fun i j => if i = j then 0 else 10

/-- Grouping of the four samples into two groups of two:
samples 0,1 have key 0 and samples 2,3 have key 1. -/
def key4 : Fin 4 → ℕ := fun i => i.val / 2

/-! ### Prevalence calculator (`src/pathogenx/calculators.py`, `PrevalenceCalculator`, lines 115-238) -/

/-- The configuration a `PrevalenceCalculator` carries after construction
(calculators.py lines 153-156). -/
structure PCConfig where
  stratify_by : List String
  adjust_for : Option (List String)
  n_distinct : Option (List String)
  denominator : Option String
deriving Repr, DecidableEq

/-- Python truthiness of an optional string: `None` and `''` are falsy. -/
def truthyStr : Option String → Bool
  | none => false
  | some s => !s.isEmpty

/-- Python truthiness of an optional list: `None` and `[]` are falsy. -/
def truthyList : Option (List String) → Bool
  | some (_ :: _) => true
  | _ => false

/-- calculators.py line 188,
`adj_col = self.adjust_for[0] if self.adjust_for else None`: the adjustment
column; Python truthiness makes both `None` and the empty list yield `None`
(the `[0]` indexing is guarded, so an empty list raises nothing). -/
def adjColOf : Option (List String) → Option String
  | some (c :: _) => some c
  | _ => none

/-- Shallow embedding of `PrevalenceCalculator.__init__` (calculators.py
lines 129-156): `if denominator and denominator not in stratify_by:` raise
`ValueError`; then `if not denominator and len(stratify_by) > 1:` default
the denominator to `stratify_by[0]`. -/
def PrevalenceCalculator.init (stratify_by : List String) (adjust_for : Option (List String))
    (n_distinct : Option (List String)) (denominator : Option String) :
    Except String PCConfig :=
  if truthyStr denominator = true ∧ denominator.getD "" ∉ stratify_by then
    .error "If provided, 'denominator' must be in 'stratify_by'."
  else
    .ok ⟨stratify_by, adjust_for, n_distinct,
      if truthyStr denominator = false ∧ 1 < stratify_by.length then stratify_by.head?
      else denominator⟩

/-- A sample row viewed as a total map from column name to cell value;
the input table of `calculate` is a list of such rows (the claims never
exercise missing-column errors, and the model carries no NaN cells). -/
abbrev Row : Type := String → String

/-- pandas `nunique()` over a list of rows: the number of distinct values
of column `c`. -/
def nuniqueBy (rows : List Row) (c : String) : ℕ :=
  (rows.map (fun r => r c)).dedup.length

/-- One output row of `PrevalenceCalculator.calculate`: the stratum key
(the stratify columns' values) and the computed columns; a `none` field
models a `*.adj` column that is absent from the result frame. -/
structure PrevRow where
  key : List String
  countRaw : ℕ
  countAdj : Option ℕ
  nDistinctCols : List (String × ℕ)
  denomRaw : ℕ
  denomAdj : Option ℕ
  propRaw : ℝ
  seRaw : ℝ
  lowerRaw : ℝ
  upperRaw : ℝ
  propAdj : Option ℝ
  seAdj : Option ℝ
  lowerAdj : Option ℝ
  upperAdj : Option ℝ
  rankRaw : ℕ
  rankAdj : Option ℕ

/-- The `PrevalenceResult` a `calculate` call returns: the calculator's
configuration (copied by `PrevalenceResult.from_calculator`, calculators.py
lines 80-91) plus the result table. -/
structure PrevalenceResult where
  stratified_by : List String
  adjusted_for : Option (List String)
  n_distinct : Option (List String)
  denominator : Option String
  rows : List PrevRow

/-- Number of elements of a list satisfying a (classically decidable)
predicate. -/
noncomputable def countProp {α : Type} (l : List α) (p : α → Prop) : ℕ :=
  (l.filter (fun a => @decide (p a) (Classical.propDecidable (p a)))).length

/-- The lexicographic descending comparison on the `[denominator, count]`
sort key of calculators.py lines 227-229
(`sort_values(by=sort_by, ascending=False)`): row `a` may precede row `b`
when its key pair is lexicographically at least `b`'s. -/
def descKeyLe (a b : ℕ × ℕ) : Bool :=
  decide (b.1 < a.1 ∨ (a.1 = b.1 ∧ b.2 ≤ a.2))

/-- Shallow embedding of `PrevalenceCalculator.calculate` (calculators.py
lines 158-238) on an input table, following the source's six steps:

1. denominators — grouped by the denominator column when one is set
   (Python-truthily), else the single global denominator; the adjusted
   denominator (distinct adjustment values) only when `adj_col` is set;
2. counts per stratum (`groupby(stratify_by).size()`), adjusted counts and
   `n_distinct` columns per stratum;
3. the denominator join — each stratum row looks its denominator up by its
   own denominator-column value;
4. proportion/SE/CI per row through `_wilson_score_interval`, for `raw`
   and, when `adj_col` is set, `adj`;
5. descending sort by the `[denominator, count]` pair — the adjusted pair
   when `adjust_for` is truthy, else the raw pair;
6. ranks within each denominator group (globally when none), by
   descending proportion, ties broken by row order (`method='first'`).

Strata are enumerated in first-seen order rather than pandas' sorted key
order; step 5 re-sorts the output by the numeric key (with a deterministic
stable sort standing in for pandas' unstable default quicksort), so only
the relative order of rows with equal sort keys — which pandas leaves
unspecified — can differ.  `z` abstracts the normal-quantile constant. -/
noncomputable def PrevalenceCalculator.calculate (cfg : PCConfig) (z : ℝ)
    (data : List Row) : PrevalenceResult :=
  let adjCol := adjColOf cfg.adjust_for
  let denomTruthy := truthyStr cfg.denominator
  let dcol := cfg.denominator.getD ""
  let strataKeys := (data.map (fun r => cfg.stratify_by.map r)).dedup
  let baseRows := strataKeys.map (fun ks =>
    let rowsIn := data.filter (fun r => cfg.stratify_by.map r == ks)
    let kval := (ks.get? (cfg.stratify_by.indexOf dcol)).getD ""
    let denomRows := if denomTruthy then data.filter (fun r => r dcol == kval) else data
    let countRaw := rowsIn.length
    let denomRaw := denomRows.length
    let wRaw := wilson_score_interval (countRaw : ℝ) (denomRaw : ℝ) z
    ({ key := ks
       countRaw := countRaw
       countAdj := adjCol.map (fun c => nuniqueBy rowsIn c)
       nDistinctCols := (match cfg.n_distinct with
         | some l => l.map (fun c => (c, nuniqueBy rowsIn c))
         | none => [])
       denomRaw := denomRaw
       denomAdj := adjCol.map (fun c => nuniqueBy denomRows c)
       propRaw := wRaw.1
       seRaw := wRaw.2.1
       lowerRaw := wRaw.2.2.1
       upperRaw := wRaw.2.2.2
       propAdj := adjCol.map (fun c =>
         (wilson_score_interval (nuniqueBy rowsIn c : ℝ) (nuniqueBy denomRows c : ℝ) z).1)
       seAdj := adjCol.map (fun c =>
         (wilson_score_interval (nuniqueBy rowsIn c : ℝ) (nuniqueBy denomRows c : ℝ) z).2.1)
       lowerAdj := adjCol.map (fun c =>
         (wilson_score_interval (nuniqueBy rowsIn c : ℝ) (nuniqueBy denomRows c : ℝ) z).2.2.1)
       upperAdj := adjCol.map (fun c =>
         (wilson_score_interval (nuniqueBy rowsIn c : ℝ) (nuniqueBy denomRows c : ℝ) z).2.2.2)
       rankRaw := 0
       rankAdj := none } : PrevRow))
  let sortKey : PrevRow → ℕ × ℕ := fun row =>
    if truthyList cfg.adjust_for = true then (row.denomAdj.getD 0, row.countAdj.getD 0)
    else (row.denomRaw, row.countRaw)
  let sorted := baseRows.mergeSort (fun a b => descKeyLe (sortKey a) (sortKey b))
  let dval : PrevRow → String := fun row =>
    if denomTruthy then (row.key.get? (cfg.stratify_by.indexOf dcol)).getD "" else ""
  let ranked := sorted.enum.map (fun p =>
    { p.2 with
      rankRaw := 1 + countProp sorted.enum (fun q =>
        dval q.2 = dval p.2 ∧
          (p.2.propRaw < q.2.propRaw ∨ (q.2.propRaw = p.2.propRaw ∧ q.1 < p.1)))
      rankAdj := adjCol.map (fun _ => 1 + countProp sorted.enum (fun q =>
        dval q.2 = dval p.2 ∧
          (p.2.propAdj.getD 0 < q.2.propAdj.getD 0 ∨
            (q.2.propAdj.getD 0 = p.2.propAdj.getD 0 ∧ q.1 < p.1)))) })
  { stratified_by := cfg.stratify_by
    adjusted_for := cfg.adjust_for
    n_distinct := cfg.n_distinct
    denominator := cfg.denominator
    rows := ranked }

/-! ## Theorems -/

set_option maxHeartbeats 1600000 in
/-- Helper for C1: the Wilson interval facts at real-number level, for
`0 ≤ c ≤ d`, `0 < d`, `0 < z`. -/
theorem wilson_bounds_real (c d z : ℝ) (hc : 0 ≤ c) (hcd : c ≤ d) (hd : 0 < d) (hz : 0 < z) :
    (wilson_score_interval c d z).2.2.1 ≤ (wilson_score_interval c d z).1 ∧
    (wilson_score_interval c d z).1 ≤ (wilson_score_interval c d z).2.2.2 ∧
    0 ≤ (wilson_score_interval c d z).2.2.1 ∧
    (wilson_score_interval c d z).2.2.2 ≤ 1 ∧
    (c = 0 → (wilson_score_interval c d z).1 = 0 ∧ (wilson_score_interval c d z).2.2.1 = 0) ∧
    (c = d → (wilson_score_interval c d z).1 = 1 ∧ (wilson_score_interval c d z).2.2.2 = 1) := by
  have hdz : (0 : ℝ) < d + z ^ 2 := by positivity
  have hd0 : d ≠ 0 := ne_of_gt hd
  have hdz0 : d + z ^ 2 ≠ 0 := ne_of_gt hdz
  have hp0 : 0 ≤ c / d := div_nonneg hc hd.le
  have hp1 : c / d ≤ 1 := (div_le_one hd).mpr hcd
  have hprop : clip (c / d) 0 1 = c / d := by
    simp [clip, max_eq_left hp0, min_eq_left hp1]
  simp only [wilson_score_interval, hprop]
  set W := Real.sqrt (c / d * (1 - c / d) * d + z ^ 2 / 4) with hWdef
  set center := (c + z ^ 2 / 2) / (d + z ^ 2) with hcenter
  set width := z / (d + z ^ 2) * W with hwidth
  have hargnn : 0 ≤ c / d * (1 - c / d) * d + z ^ 2 / 4 := by
    have h1 : 0 ≤ c / d * (1 - c / d) * d :=
      mul_nonneg (mul_nonneg hp0 (by linarith)) hd.le
    have h2 : (0:ℝ) ≤ z ^ 2 / 4 := by positivity
    linarith
  have hWnn : 0 ≤ W := Real.sqrt_nonneg _
  have hW2 : W ^ 2 = c * (d - c) / d + z ^ 2 / 4 := by
    rw [hWdef, Real.sq_sqrt hargnn]; field_simp; ring
  have hw_nn : 0 ≤ width := by rw [hwidth]; positivity
  -- squared comparison: (2*d*z*W)^2 - (z^2*(2*c-d))^2 = 4*c*(d-c)*z^2*(d+z^2) ≥ 0
  have hsq : (z ^ 2 * (2 * c - d)) ^ 2 ≤ (2 * d * z * W) ^ 2 := by
    have hexp : (2 * d * z * W) ^ 2 = 4 * d * c * (d - c) * z ^ 2 + d ^ 2 * z ^ 4 := by
      have h4 : (2 * d * z * W) ^ 2 = 4 * d ^ 2 * z ^ 2 * W ^ 2 := by ring
      rw [h4, hW2]; field_simp; ring
    have hprod : 0 ≤ 4 * c * (d - c) * z ^ 2 * (d + z ^ 2) :=
      mul_nonneg (mul_nonneg (mul_nonneg (by linarith) (by linarith)) (sq_nonneg z)) hdz.le
    nlinarith [hexp, hprod]
  have hB : (0 : ℝ) ≤ 2 * d * z * W := by positivity
  have habs1 : z ^ 2 * (2 * c - d) ≤ 2 * d * z * W := by
    nlinarith [hsq, hB, sq_nonneg (z ^ 2 * (2 * c - d) + 2 * d * z * W)]
  have habs2 : -(2 * d * z * W) ≤ z ^ 2 * (2 * c - d) := by
    nlinarith [hsq, hB, sq_nonneg (z ^ 2 * (2 * c - d) - 2 * d * z * W)]
  have hden : (0 : ℝ) < 2 * d * (d + z ^ 2) := by positivity
  have hcp : c / d - center = z ^ 2 * (2 * c - d) / (2 * d * (d + z ^ 2)) := by
    rw [hcenter]; field_simp; ring
  have hwB : width = 2 * d * z * W / (2 * d * (d + z ^ 2)) := by
    rw [hwidth]; field_simp; ring
  have hlowp : center - width ≤ c / d := by
    have h := (div_le_div_iff_of_pos_right hden).mpr habs2
    rw [← hcp] at h
    rw [hwB]
    have : -(2 * d * z * W) / (2 * d * (d + z ^ 2)) = -(2 * d * z * W / (2 * d * (d + z ^ 2))) :=
      neg_div _ _
    rw [this] at h
    linarith
  have hupp : c / d ≤ center + width := by
    have h := (div_le_div_iff_of_pos_right hden).mpr habs1
    rw [← hcp] at h
    rw [hwB]
    linarith
  have hsplit : width ^ 2 = (z / (d + z ^ 2)) ^ 2 * W ^ 2 := by rw [hwidth]; ring
  have hcen_nn : 0 ≤ center := by rw [hcenter]; positivity
  have hl0 : 0 ≤ center - width := by
    have key : ∀ w : ℝ, w = c * (d - c) / d + z ^ 2 / 4 →
        ((c + z ^ 2 / 2) / (d + z ^ 2)) ^ 2 - (z / (d + z ^ 2)) ^ 2 * w
          = c ^ 2 / (d * (d + z ^ 2)) := by
      intro w hw
      subst hw
      field_simp
      ring
    have hdiff : center ^ 2 - width ^ 2 = c ^ 2 / (d * (d + z ^ 2)) := by
      rw [hsplit, hcenter]
      exact key _ hW2
    have hnn : 0 ≤ c ^ 2 / (d * (d + z ^ 2)) := by positivity
    have hww : width ^ 2 ≤ center ^ 2 := by linarith
    have := (pow_le_pow_iff_left₀ hw_nn hcen_nn (by norm_num : (2:ℕ) ≠ 0)).mp hww
    linarith
  have hu1 : center + width ≤ 1 := by
    have hcen_le : center ≤ 1 := by
      rw [hcenter, div_le_one hdz]; linarith [sq_nonneg z]
    have hcen_le1 : 0 ≤ 1 - center := by linarith
    have key : ∀ w : ℝ, w = c * (d - c) / d + z ^ 2 / 4 →
        (1 - (c + z ^ 2 / 2) / (d + z ^ 2)) ^ 2 - (z / (d + z ^ 2)) ^ 2 * w
          = (d - c) ^ 2 / (d * (d + z ^ 2)) := by
      intro w hw
      subst hw
      field_simp
      ring
    have hdiff : (1 - center) ^ 2 - width ^ 2 = (d - c) ^ 2 / (d * (d + z ^ 2)) := by
      rw [hsplit, hcenter]
      exact key _ hW2
    have hnn : 0 ≤ (d - c) ^ 2 / (d * (d + z ^ 2)) := by positivity
    have hww : width ^ 2 ≤ (1 - center) ^ 2 := by linarith
    have := (pow_le_pow_iff_left₀ hw_nn hcen_le1 (by norm_num : (2:ℕ) ≠ 0)).mp hww
    linarith
  refine ⟨hlowp, hupp, hl0, hu1, ?_, ?_⟩
  · intro hc0
    constructor
    · rw [hc0, zero_div]
    · rw [hcenter, hwidth, hWdef, hc0]
      rw [show (0:ℝ) / d * (1 - 0 / d) * d + z ^ 2 / 4 = (z / 2) ^ 2 by ring]
      rw [Real.sqrt_sq (by positivity : (0:ℝ) ≤ z / 2)]
      field_simp
      ring
  · intro hcd'
    constructor
    · rw [hcd', div_self hd0]
    · rw [hcenter, hwidth, hWdef, hcd', div_self hd0]
      rw [show (1:ℝ) * (1 - 1) * d + z ^ 2 / 4 = (z / 2) ^ 2 by ring]
      rw [Real.sqrt_sq (by positivity : (0:ℝ) ≤ z / 2)]
      field_simp
      ring

/-- C1: for every `PrevalenceCalculator.calculate` run the per-row statistics
come from `_wilson_score_interval`, whose formulas match the specification's
Wilson block verbatim; and for all integer counts `k` and denominators `n`
with `0 ≤ k ≤ n`, `n > 0` (and any positive `z`, in particular the source's
`z = norm.ppf(0.975)`), the returned values satisfy
`lower ≤ prop ≤ upper`, both bounds lie in `[0, 1]`, `k = 0` gives
`prop = 0` and `lower = 0`, and `k = n` gives `prop = 1` and `upper = 1`. -/
theorem wilson_interval_bounds (k n : ℕ) (z : ℝ) (hkn : k ≤ n) (hn : 0 < n) (hz : 0 < z) :
    wilson_score_interval (k : ℝ) (n : ℝ) z = wilson_spec (k : ℝ) (n : ℝ) z ∧
    (wilson_score_interval (k : ℝ) (n : ℝ) z).2.2.1 ≤ (wilson_score_interval (k : ℝ) (n : ℝ) z).1 ∧
    (wilson_score_interval (k : ℝ) (n : ℝ) z).1 ≤ (wilson_score_interval (k : ℝ) (n : ℝ) z).2.2.2 ∧
    0 ≤ (wilson_score_interval (k : ℝ) (n : ℝ) z).2.2.1 ∧
    (wilson_score_interval (k : ℝ) (n : ℝ) z).2.2.2 ≤ 1 ∧
    (k = 0 → (wilson_score_interval (k : ℝ) (n : ℝ) z).1 = 0 ∧
      (wilson_score_interval (k : ℝ) (n : ℝ) z).2.2.1 = 0) ∧
    (k = n → (wilson_score_interval (k : ℝ) (n : ℝ) z).1 = 1 ∧
      (wilson_score_interval (k : ℝ) (n : ℝ) z).2.2.2 = 1) := by
  have hd : (0 : ℝ) < n := by exact_mod_cast hn
  have hc : (0 : ℝ) ≤ k := by positivity
  have hcd : (k : ℝ) ≤ n := by exact_mod_cast hkn
  obtain ⟨h1, h2, h3, h4, h5, h6⟩ := wilson_bounds_real (k : ℝ) (n : ℝ) z hc hcd hd hz
  refine ⟨rfl, h1, h2, h3, h4, ?_, ?_⟩
  · intro hk0
    exact h5 (by exact_mod_cast hk0)
  · intro hkn'
    exact h6 (by exact_mod_cast hkn')

/-- Witness for C1 at `k = 1`, `n = 2`, `z = 2`. -/
theorem wilson_interval_bounds_witness :
    (wilson_score_interval ((1 : ℕ) : ℝ) ((2 : ℕ) : ℝ) 2).2.2.1 ≤
      (wilson_score_interval ((1 : ℕ) : ℝ) ((2 : ℕ) : ℝ) 2).1 :=
  (wilson_interval_bounds 1 2 2 (by norm_num) (by norm_num) (by norm_num)).2.1

/-- C2: evaluation of `DistFile.from_flavour` (io.py lines 181-205).
The claim says `"ska2"` yields a long/tab/(0,1,2) reader; because io.py
line 199 repeats the comparison `flavour == 'ska1'` instead of testing
`'ska2'`, the `"ska2"` string actually falls through to the `else` branch
and raises `ValueError("Unknown flavour: ska2")`.  The remaining parts of
the claim hold: `"ska1"` gives long/tab/(0,1,6), and a string outside the
flavour set raises an invalid-input error naming the value. -/
theorem distfile_ska2_flavour_bug :
    distFile_from_flavour "ska2" = .error "Unknown flavour: ska2" ∧
    distFile_from_flavour "ska1" = .ok ⟨"long", "\t", (0, 1, 6), true⟩ ∧
    distFile_from_flavour "mash" = .ok ⟨"long", "\t", (0, 1, 3), true⟩ ∧
    distFile_from_flavour "bogus" = .error "Unknown flavour: bogus" :=
  ⟨rfl, rfl, rfl, rfl⟩

/-- C9 counterexample: the `pw-dist` flavour constructs its reader with
`symmetrical=True` (io.py line 202), so the square-shape `load` returns the
parsed matrix unchanged (io.py lines 163-168) and never checks actual
symmetry: loading the asymmetric parsed body `[[0, 1], [2, 0]]` returns an
asymmetric matrix, contradicting the claim that every square-shape load
returns a symmetric matrix. -/
theorem square_load_symmetry_counterexample :
    ¬ (∀ i j : Fin 2, (distFile_load_square true asym2 ["s1", "s2"]).1 i j
        = (distFile_load_square true asym2 ["s1", "s2"]).1 j i) := by
  decide

/-- C9 amended: the square-shape load applies the elementwise maximum with
the transpose (yielding a symmetric matrix) if and only if the reader's
`symmetrical` flag is `False`; with `symmetrical=True` — which is what the
`pw-dist` flavour sets — the parsed matrix and the column-header names are
returned unchanged, so the result is symmetric only if the input already
is. -/
theorem square_load_symmetrical_flag_semantics :
    (∀ (m : ℕ) (df : Fin m → Fin m → ℚ) (names : List String),
        distFile_load_square true df names = (df, names)) ∧
    (∀ (m : ℕ) (df : Fin m → Fin m → ℚ) (names : List String) (i j : Fin m),
        (distFile_load_square false df names).1 i j
          = (distFile_load_square false df names).1 j i ∧
        (distFile_load_square false df names).1 i j = max (df i j) (df j i)) ∧
    distFile_from_flavour "pw-dist" = .ok ⟨"square", ",", (0, 1, 2), true⟩ :=
  ⟨fun _ _ _ => rfl, fun _ _ _ i j => ⟨max_comm _ _, rfl⟩, rfl⟩

/-- C4: the merge itself (dataset.py lines 25-29) does preserve the claim's
row invariants — the merged index equals the genotype index for every
genotype/metadata pair, and in the concrete two-sample example the sample
absent from the metadata gets a NaN metadata cell — and the intended
column partition of line 44 (spec §9's reading, with `qc_metrics` as the
parameter) makes genotype and metadata column sets disjoint; but the claim
that construction succeeds is false: `__init__` evaluates the unassigned
`self.qc_metrics` attribute on line 44 and raises `AttributeError`, so
every `Dataset` construction fails. -/
theorem dataset_merge_invariants_bug :
    (∀ (g m : PyTable) (name : String),
        (Dataset.mergedTable g (some m) name).index = g.index) ∧
    (Dataset.mergedTable genoEx (some metaEx) "unknown").index = ["s1", "s2"] ∧
    (Dataset.mergedTable genoEx (some metaEx) "unknown").cell "s2" "Country" = none ∧
    (Dataset.mergedTable genoEx (some metaEx) "unknown").cell "s1" "Country" = some "AU" ∧
    (∀ gc qc mc : Finset String,
        Dataset.genotypeColumnsIntended gc qc mc ∩ Dataset.metadataColumnsOf mc = ∅) ∧
    Dataset.init genoEx (some metaEx) none "unknown"
      = .error (.attributeError "'Dataset' object has no attribute 'qc_metrics'") := by
  refine ⟨?_, by decide, by decide, by decide, ?_, rfl⟩
  · intro g m name
    simp [Dataset.mergedTable, leftJoin, addDatasetColumn, PyTable.index, List.map_map,
      Function.comp]
  · intro gc qc mc
    ext x
    simp [Dataset.genotypeColumnsIntended, Dataset.metadataColumnsOf]

/-- C5: the distance-index completeness check (dataset.py lines 33-35) does
run before the broken line 44 and raises `DatasetError('Sample s2 not in
index')` naming the missing sample; but the claim's success half is false:
when every sample is present, construction still fails afterwards with the
`AttributeError` on the unassigned `qc_metrics` attribute, so no `Dataset`
with a reindexed table and retained CSR matrix is ever produced. -/
theorem dataset_distance_check_bug :
    Dataset.init genoEx none (some ["s1"]) "unknown"
      = .error (.datasetError "Sample s2 not in index") ∧
    Dataset.init genoEx none (some ["s2", "s1"]) "unknown"
      = .error (.attributeError "'Dataset' object has no attribute 'qc_metrics'") := by
  exact ⟨rfl, rfl⟩

/-- C3: the CLI `prevalence` command cannot reach its output stage: cli.py
line 83 calls `Dataset.from_files(...)`, but no `from_files` attribute is
defined on the `Dataset` class anywhere in the repository, so every
invocation — in particular the claim's 3-row genotype CSV with
`--stratify-by ST` — raises `AttributeError` and exits non-zero with no
TSV written, instead of printing a 2-row result table. -/
theorem cli_prevalence_from_files_bug :
    cliPrevalence false "pw-dist"
      = .error (.attributeError "type object 'Dataset' has no attribute 'from_files'") ∧
    "from_files" ∉ datasetClassAttrs := by
  exact ⟨rfl, by decide⟩

/-! ### Connected-components lemmas -/

/-- Expansion only adds vertices. -/
theorem subset_stepSet {n : ℕ} (s : Finset (Fin n)) (M : Fin n → Fin n → ℚ) (t : ℚ)
    (A : Finset (Fin n)) : A ⊆ stepSet s M t A :=
  Finset.subset_union_left

/-- Iterated expansion is monotone in the step count. -/
theorem iterate_subset_succ {n : ℕ} (s : Finset (Fin n)) (M : Fin n → Fin n → ℚ) (t : ℚ)
    (i : Fin n) (k : ℕ) :
    (stepSet s M t)^[k] {i} ⊆ (stepSet s M t)^[k + 1] {i} := by
  rw [Function.iterate_succ_apply']
  exact subset_stepSet s M t _

/-- Monotonicity of iterated expansion between any two step counts. -/
theorem iterate_subset_of_le {n : ℕ} (s : Finset (Fin n)) (M : Fin n → Fin n → ℚ) (t : ℚ)
    (i : Fin n) {k l : ℕ} (h : k ≤ l) :
    (stepSet s M t)^[k] {i} ⊆ (stepSet s M t)^[l] {i} := by
  induction l, h using Nat.le_induction with
  | base => exact subset_rfl
  | succ l hkl ih => exact ih.trans (iterate_subset_succ s M t i l)

/-- A fixed point of expansion stays fixed under iteration. -/
theorem stepSet_fixed_iterate {n : ℕ} (s : Finset (Fin n)) (M : Fin n → Fin n → ℚ) (t : ℚ)
    {A : Finset (Fin n)} (h : stepSet s M t A = A) (m : ℕ) :
    (stepSet s M t)^[m] A = A := by
  induction m with
  | zero => rfl
  | succ m ih => rw [Function.iterate_succ_apply', ih, h]

/-- Either iteration has stabilised after `k` steps or at least `k + 1`
vertices have been visited. -/
theorem iterate_growth {n : ℕ} (s : Finset (Fin n)) (M : Fin n → Fin n → ℚ) (t : ℚ)
    (i : Fin n) (k : ℕ) :
    (stepSet s M t)^[k + 1] {i} = (stepSet s M t)^[k] {i} ∨
      k + 1 ≤ ((stepSet s M t)^[k] {i}).card := by
  induction k with
  | zero => right; simp
  | succ k ih =>
    by_cases heq : (stepSet s M t)^[k + 1] {i} = (stepSet s M t)^[k] {i}
    · left
      rw [Function.iterate_succ_apply', heq]
      exact (Function.iterate_succ_apply' _ _ _).symm.trans heq
    · right
      rcases ih with heq' | hcard
      · exact absurd heq' heq
      · have hsub := iterate_subset_succ s M t i k
        have hss : (stepSet s M t)^[k] {i} ⊂ (stepSet s M t)^[k + 1] {i} :=
          (Finset.ssubset_iff_subset_ne).mpr ⟨hsub, fun h => heq h.symm⟩
        have := Finset.card_lt_card hss
        omega

/-- After `n` steps on `Fin n` the reachable set is a fixed point of
expansion. -/
theorem reach_stabilizes {n : ℕ} (s : Finset (Fin n)) (M : Fin n → Fin n → ℚ) (t : ℚ)
    (i : Fin n) :
    stepSet s M t (reachSet s M t i) = reachSet s M t i := by
  rcases iterate_growth s M t i n with heq | hcard
  · unfold reachSet
    exact (Function.iterate_succ_apply' _ _ _).symm.trans heq
  · exfalso
    have hle : ((stepSet s M t)^[n] {i}).card ≤ n := by
      have := Finset.card_le_univ ((stepSet s M t)^[n] {i})
      simpa using this
    omega

/-- Membership in the reachable set is exactly in-group path
reachability. -/
theorem mem_reachSet_iff {n : ℕ} (s : Finset (Fin n)) (M : Fin n → Fin n → ℚ) (t : ℚ)
    (i j : Fin n) :
    j ∈ reachSet s M t i ↔ Relation.ReflTransGen (adjIn s M t) i j := by
  constructor
  · have H : ∀ k, ∀ w, w ∈ (stepSet s M t)^[k] {i} →
        Relation.ReflTransGen (adjIn s M t) i w := by
      intro k
      induction k with
      | zero =>
        intro w hw
        simp only [Function.iterate_zero_apply, Finset.mem_singleton] at hw
        subst hw
        exact Relation.ReflTransGen.refl
      | succ k ih =>
        intro w hw
        rw [Function.iterate_succ_apply'] at hw
        rcases Finset.mem_union.mp hw with h1 | h2
        · exact ih w h1
        · obtain ⟨hws, a, haA, hadj⟩ := Finset.mem_filter.mp h2
          exact (ih a haA).tail hadj
    exact H n j
  · intro h
    induction h with
    | refl =>
      exact iterate_subset_of_le s M t i (Nat.zero_le n) (by simp)
    | @tail b c hab hbc ih =>
      have hc : c ∈ stepSet s M t (reachSet s M t i) :=
        Finset.mem_union_right _ (Finset.mem_filter.mpr ⟨hbc.2.1, ⟨b, ih, hbc⟩⟩)
      rw [reach_stabilizes s M t i] at hc
      exact hc

/-- In-group adjacency is symmetric (undirected components). -/
theorem adjIn_symm {n : ℕ} (s : Finset (Fin n)) (M : Fin n → Fin n → ℚ) (t : ℚ)
    {i j : Fin n} (h : adjIn s M t i j) : adjIn s M t j i :=
  ⟨h.2.1, h.1, h.2.2.symm⟩

/-- In-group reachability is symmetric. -/
theorem reach_symm {n : ℕ} (s : Finset (Fin n)) (M : Fin n → Fin n → ℚ) (t : ℚ)
    {i j : Fin n} (h : Relation.ReflTransGen (adjIn s M t) i j) :
    Relation.ReflTransGen (adjIn s M t) j i :=
  Relation.ReflTransGen.symmetric (fun _ _ hab => adjIn_symm s M t hab) h

/-- Mutually reachable vertices have the same reachable set. -/
theorem reachSet_congr {n : ℕ} (s : Finset (Fin n)) (M : Fin n → Fin n → ℚ) (t : ℚ)
    {i j : Fin n} (h : Relation.ReflTransGen (adjIn s M t) i j) :
    reachSet s M t i = reachSet s M t j := by
  ext w
  rw [mem_reachSet_iff, mem_reachSet_iff]
  exact ⟨fun hw => Relation.ReflTransGen.trans (reach_symm s M t h) hw,
         fun hw => h.trans hw⟩

/-- `min'` only depends on the underlying set. -/
theorem min'_congr {α : Type} [LinearOrder α] {s u : Finset α} (h : s = u)
    (hs : s.Nonempty) (hu : u.Nonempty) : s.min' hs = u.min' hu := by
  subst h
  rfl

/-- A vertex reaches itself. -/
theorem self_mem_reachSet {n : ℕ} (s : Finset (Fin n)) (M : Fin n → Fin n → ℚ) (t : ℚ)
    (i : Fin n) : i ∈ reachSet s M t i :=
  (mem_reachSet_iff s M t i i).mpr Relation.ReflTransGen.refl

/-- Inserting the base vertex into its reachable set changes nothing. -/
theorem insert_reachSet {n : ℕ} (s : Finset (Fin n)) (M : Fin n → Fin n → ℚ) (t : ℚ)
    (i : Fin n) : insert i (reachSet s M t i) = reachSet s M t i :=
  Finset.insert_eq_self.mpr (self_mem_reachSet s M t i)

/-- Every vertex reaches its representative. -/
theorem rep_reach {n : ℕ} (s : Finset (Fin n)) (M : Fin n → Fin n → ℚ) (t : ℚ)
    (i : Fin n) : Relation.ReflTransGen (adjIn s M t) i (rep s M t i) := by
  have hmem : rep s M t i ∈ insert i (reachSet s M t i) := Finset.min'_mem _ _
  rw [insert_reachSet] at hmem
  exact (mem_reachSet_iff s M t i _).mp hmem

/-- Two vertices have equal representatives iff they are in-group
reachable from each other. -/
theorem rep_eq_iff {n : ℕ} (s : Finset (Fin n)) (M : Fin n → Fin n → ℚ) (t : ℚ)
    (i j : Fin n) :
    rep s M t i = rep s M t j ↔ Relation.ReflTransGen (adjIn s M t) i j := by
  constructor
  · intro h
    have hi := rep_reach s M t i
    have hj := rep_reach s M t j
    rw [h] at hi
    exact hi.trans (reach_symm s M t hj)
  · intro h
    unfold rep
    exact min'_congr (by rw [insert_reachSet, insert_reachSet, reachSet_congr s M t h]) _ _

/-- Strictly smaller representatives give strictly smaller local labels. -/
theorem localLabel_lt_of_rep_lt {n : ℕ} (s : Finset (Fin n)) (M : Fin n → Fin n → ℚ) (t : ℚ)
    {i j : Fin n} (hi : i ∈ s) (hlt : rep s M t i < rep s M t j) :
    localLabel s M t i < localLabel s M t j := by
  apply Finset.card_lt_card
  have hsub : (s.filter (fun w => rep s M t w < rep s M t i)).image (rep s M t)
      ⊆ (s.filter (fun w => rep s M t w < rep s M t j)).image (rep s M t) := by
    apply Finset.image_subset_image
    intro x hx
    have hx' := Finset.mem_filter.mp hx
    exact Finset.mem_filter.mpr ⟨hx'.1, hx'.2.trans hlt⟩
  refine (Finset.ssubset_iff_of_subset hsub).mpr ⟨rep s M t i, ?_, ?_⟩
  · exact Finset.mem_image.mpr ⟨i, Finset.mem_filter.mpr ⟨hi, hlt⟩, rfl⟩
  · intro hmem
    obtain ⟨w, hw, hww⟩ := Finset.mem_image.mp hmem
    have := (Finset.mem_filter.mp hw).2
    rw [hww] at this
    exact lt_irrefl _ this

/-- Equal local labels within a group mean equal representatives. -/
theorem localLabel_eq_iff {n : ℕ} (s : Finset (Fin n)) (M : Fin n → Fin n → ℚ) (t : ℚ)
    {i j : Fin n} (hi : i ∈ s) (hj : j ∈ s) :
    localLabel s M t i = localLabel s M t j ↔ rep s M t i = rep s M t j := by
  constructor
  · intro h
    rcases lt_trichotomy (rep s M t i) (rep s M t j) with hlt | heq | hgt
    · exact absurd h (ne_of_lt (localLabel_lt_of_rep_lt s M t hi hlt))
    · exact heq
    · exact absurd h.symm (ne_of_lt (localLabel_lt_of_rep_lt s M t hj hgt))
  · intro h
    unfold localLabel
    rw [h]

/-- On the whole-dataset group, in-group reachability is reachability
along surviving edges. -/
theorem rtg_univ_iff {n : ℕ} (M : Fin n → Fin n → ℚ) (t : ℚ) (i j : Fin n) :
    Relation.ReflTransGen (adjIn (Finset.univ) M t) i j ↔
      Relation.ReflTransGen (adjEdge M t) i j :=
  ⟨Relation.ReflTransGen.mono (fun _ _ h => h.2.2),
   Relation.ReflTransGen.mono (fun a b h => ⟨Finset.mem_univ a, Finset.mem_univ b, h⟩)⟩

/-- Each local label is below the group's component count. -/
theorem localLabel_lt_numComponents {n : ℕ} (s : Finset (Fin n)) (M : Fin n → Fin n → ℚ)
    (t : ℚ) {i : Fin n} (hi : i ∈ s) :
    localLabel s M t i < numComponents s M t := by
  apply Finset.card_lt_card
  have hsub : (s.filter (fun w => rep s M t w < rep s M t i)).image (rep s M t)
      ⊆ s.image (rep s M t) :=
    Finset.image_subset_image (Finset.filter_subset _ _)
  refine (Finset.ssubset_iff_of_subset hsub).mpr ⟨rep s M t i, ?_, ?_⟩
  · exact Finset.mem_image.mpr ⟨i, hi, rfl⟩
  · intro hmem
    obtain ⟨w, hw, hww⟩ := Finset.mem_image.mp hmem
    have := (Finset.mem_filter.mp hw).2
    rw [hww] at this
    exact lt_irrefl _ this

/-- The running counter of a later group clears the whole label range of
an earlier one. -/
theorem groupOffset_mono {n : ℕ} (M : Fin n → Fin n → ℚ) (t : ℚ) (key : Fin n → ℕ)
    (i j : Fin n) (hlt : key i < key j) :
    groupOffset M t key (key i) + numComponents (groupSet key (key i)) M t ≤
      groupOffset M t key (key j) := by
  unfold groupOffset
  have hmemK : key i ∈ Finset.univ.image key :=
    Finset.mem_image.mpr ⟨i, Finset.mem_univ i, rfl⟩
  have hnotA : key i ∉ (Finset.univ.image key).filter (fun k' => k' < key i) := by
    intro hmem
    exact lt_irrefl _ (Finset.mem_filter.mp hmem).2
  have hsub : insert (key i) ((Finset.univ.image key).filter (fun k' => k' < key i))
      ⊆ (Finset.univ.image key).filter (fun k' => k' < key j) := by
    intro x hx
    rcases Finset.mem_insert.mp hx with rfl | hxA
    · exact Finset.mem_filter.mpr ⟨hmemK, hlt⟩
    · have hx' := Finset.mem_filter.mp hxA
      exact Finset.mem_filter.mpr ⟨hx'.1, hx'.2.trans hlt⟩
  have hsum : (∑ k' ∈ insert (key i) ((Finset.univ.image key).filter (fun k' => k' < key i)),
        numComponents (groupSet key k') M t)
      ≤ ∑ k' ∈ (Finset.univ.image key).filter (fun k' => k' < key j),
        numComponents (groupSet key k') M t :=
    Finset.sum_le_sum_of_subset hsub
  rw [Finset.sum_insert hnotA] at hsum
  omega

/-- Cluster numbers are strictly ordered across groups in key order. -/
theorem ccNumber_lt_of_key_lt {n : ℕ} (M : Fin n → Fin n → ℚ) (t : ℚ) (key : Fin n → ℕ)
    (i j : Fin n) (hlt : key i < key j) :
    ccNumber M t key i < ccNumber M t key j := by
  have h1 : localLabel (groupSet key (key i)) M t i <
      numComponents (groupSet key (key i)) M t :=
    localLabel_lt_numComponents _ M t
      (Finset.mem_filter.mpr ⟨Finset.mem_univ i, rfl⟩)
  have h2 := groupOffset_mono M t key i j hlt
  unfold ccNumber
  omega

/-- C6: with no `group_by` (a single group over all samples), two samples
receive the same cluster number iff a path of surviving edges (recorded
distance nonzero and ≤ threshold, in either stored direction) connects
them; for grouped runs the same holds within a group along paths of the
group's induced subgraph; the claim's three-sample example gives one
cluster at threshold 5 (the boundary distance 5 counts as connected) and
three singletons at threshold 4; calling without a distance matrix raises
`DatasetError`, and an unknown method raises `ValueError`. -/
theorem connected_components_cluster_semantics :
    (∀ (n : ℕ) (M : Fin n → Fin n → ℚ) (t : ℚ) (i j : Fin n),
        ccNumberAll M t i = ccNumberAll M t j ↔
          Relation.ReflTransGen (adjEdge M t) i j) ∧
    (∀ (n : ℕ) (M : Fin n → Fin n → ℚ) (t : ℚ) (key : Fin n → ℕ) (i j : Fin n),
        key i = key j →
          (ccNumber M t key i = ccNumber M t key j ↔
            Relation.ReflTransGen (adjIn (groupSet key (key i)) M t) i j)) ∧
    calculate_clusters 3 (some M3) "connected_components" none 5
      = .ok ["cluster_1", "cluster_1", "cluster_1"] ∧
    calculate_clusters 3 (some M3) "connected_components" none 4
      = .ok ["cluster_1", "cluster_2", "cluster_3"] ∧
    calculate_clusters 3 none "connected_components" none 5
      = .error (.datasetError
          "Cannot calculate connected components: no distance matrix found in Dataset.") ∧
    calculate_clusters 3 (some M3) "foo" none 5
      = .error (.valueError "Unknown method: foo") := by
  refine ⟨?_, ?_, rfl, rfl, rfl, rfl⟩
  · intro n M t i j
    unfold ccNumberAll
    rw [Nat.add_right_cancel_iff]
    rw [localLabel_eq_iff Finset.univ M t (Finset.mem_univ i) (Finset.mem_univ j)]
    rw [rep_eq_iff]
    exact rtg_univ_iff M t i j
  · intro n M t key i j hk
    have hi : i ∈ groupSet key (key i) := Finset.mem_filter.mpr ⟨Finset.mem_univ i, rfl⟩
    have hj : j ∈ groupSet key (key i) := Finset.mem_filter.mpr ⟨Finset.mem_univ j, hk.symm⟩
    unfold ccNumber
    rw [← hk, Nat.add_right_cancel_iff]
    rw [localLabel_eq_iff (groupSet key (key i)) M t hi hj]
    exact rep_eq_iff _ M t i j

/-- Witness for the grouped conjunct of C6 at a concrete input: samples 0
and 1 of the four-sample example share key 0. -/
theorem connected_components_cluster_semantics_witness :
    ccNumber M4 5 key4 0 = ccNumber M4 5 key4 1 ↔
      Relation.ReflTransGen (adjIn (groupSet key4 (key4 0)) M4 5) 0 1 :=
  connected_components_cluster_semantics.2.1 4 M4 5 key4 0 1 rfl

/-- C7: across a grouped connected-components run, cluster numbers are
never reused between groups — each group's labels are
`local_label + running_offset` with the offset advancing by one more than
the group's maximum local label — and in a run where two groups each form
two components the four labels `cluster_1 … cluster_4` are pairwise
distinct. -/
theorem cluster_labels_unique_across_groups :
    (∀ (n : ℕ) (M : Fin n → Fin n → ℚ) (t : ℚ) (key : Fin n → ℕ) (i j : Fin n),
        key i ≠ key j → ccNumber M t key i ≠ ccNumber M t key j) ∧
    calculate_clusters 4 (some M4) "connected_components" (some key4) 5
      = .ok ["cluster_1", "cluster_2", "cluster_3", "cluster_4"] := by
  constructor
  · intro n M t key i j hne
    rcases hne.lt_or_lt with h | h
    · exact ne_of_lt (ccNumber_lt_of_key_lt M t key i j h)
    · exact (ne_of_lt (ccNumber_lt_of_key_lt M t key j i h)).symm
  · rfl

/-- Witness for C7 at the concrete four-sample input: samples 0 and 2 lie
in different groups and get different cluster numbers. -/
theorem cluster_labels_unique_across_groups_witness :
    ccNumber M4 5 key4 0 ≠ ccNumber M4 5 key4 2 :=
  cluster_labels_unique_across_groups.1 4 M4 5 key4 0 2 (by decide)

/-- C8: `PrevalenceCalculator` construction raises the invalid-configuration
`ValueError` if and only if a non-empty denominator is given that is not a
member of `stratify_by`; with no denominator and more than one stratify
column, the constructed denominator defaults to the first stratify column;
with a single stratify column and no denominator it stays unset. -/
theorem prevalence_calculator_init_validation :
    (∀ (sb : List String) (af nd : Option (List String)) (d : Option String),
        (∃ msg, PrevalenceCalculator.init sb af nd d = .error msg) ↔
          (∃ s, d = some s ∧ s ≠ "" ∧ s ∉ sb)) ∧
    (∀ (sb : List String) (af nd : Option (List String)),
        1 < sb.length →
          ∃ cfg, PrevalenceCalculator.init sb af nd none = .ok cfg ∧
            cfg.denominator = sb.head?) ∧
    (∀ (c : String) (af nd : Option (List String)),
        ∃ cfg, PrevalenceCalculator.init [c] af nd none = .ok cfg ∧
          cfg.denominator = none) ∧
    PrevalenceCalculator.init ["Y", "Z"] none none (some "X")
      = .error "If provided, 'denominator' must be in 'stratify_by'." := by
  refine ⟨?_, ?_, ?_, ?_⟩
  · intro sb af nd d
    unfold PrevalenceCalculator.init
    by_cases h : truthyStr d = true ∧ d.getD "" ∉ sb
    · rw [if_pos h]
      constructor
      · intro _
        obtain ⟨h1, h2⟩ := h
        match d with
        | none => simp [truthyStr] at h1
        | some s =>
          refine ⟨s, rfl, ?_, by simpa using h2⟩
          intro hs
          subst hs
          exact absurd h1 (by decide)
      · intro _
        exact ⟨_, rfl⟩
    · rw [if_neg h]
      constructor
      · rintro ⟨msg, hmsg⟩
        simp at hmsg
      · rintro ⟨s, rfl, hs, hnot⟩
        exact absurd ⟨by simp [truthyStr, (String.isEmpty_iff s).ne.mpr hs],
          by simpa using hnot⟩ h
  · intro sb af nd hlen
    refine ⟨⟨sb, af, nd, sb.head?⟩, ?_, rfl⟩
    unfold PrevalenceCalculator.init
    rw [if_neg (by simp [truthyStr])]
    rw [if_pos ⟨rfl, hlen⟩]
  · intro c af nd
    refine ⟨⟨[c], af, nd, none⟩, ?_, rfl⟩
    unfold PrevalenceCalculator.init
    rw [if_neg (by simp [truthyStr])]
    rw [if_neg (by simp)]
  · rfl

/-- Witness for C8 at `stratify_by = ["Y", "Z"]`, no denominator given. -/
theorem prevalence_calculator_init_validation_witness :
    ∃ cfg, PrevalenceCalculator.init ["Y", "Z"] none none none = .ok cfg ∧
      cfg.denominator = (["Y", "Z"] : List String).head? :=
  prevalence_calculator_init_validation.2.1 ["Y", "Z"] none none (by norm_num)

/-- Helper: the second component of an `enumFrom` entry is a member of the
underlying list. -/
theorem snd_mem_of_mem_enumFrom {α : Type} : ∀ (l : List α) (n : ℕ) (p : ℕ × α),
    p ∈ l.enumFrom n → p.2 ∈ l := by
  intro l
  induction l with
  | nil => intro n p hp; simp [List.enumFrom] at hp
  | cons a l ih =>
    intro n p hp
    rw [List.enumFrom] at hp
    rcases List.mem_cons.mp hp with rfl | hmem
    · exact List.mem_cons_self _ _
    · exact List.mem_cons_of_mem _ (ih _ _ hmem)

/-- Helper: every result row of a `calculate` run with `adjust_for = None`
has all of its `*.adj` fields absent. -/
theorem calculate_none_adj_fields (sb : List String) (nd : Option (List String))
    (d : Option String) (z : ℝ) (data : List Row) :
    ∀ row ∈ (PrevalenceCalculator.calculate ⟨sb, none, nd, d⟩ z data).rows,
      row.countAdj = none ∧ row.denomAdj = none ∧ row.propAdj = none ∧
      row.seAdj = none ∧ row.lowerAdj = none ∧ row.upperAdj = none ∧
      row.rankAdj = none := by
  intro row hrow
  simp only [PrevalenceCalculator.calculate, adjColOf, Option.map_none'] at hrow
  obtain ⟨p, hp, hf⟩ := List.mem_map.mp hrow
  have hp2 := snd_mem_of_mem_enumFrom _ 0 p hp
  rw [List.mem_mergeSort] at hp2
  obtain ⟨ks, hks, hmk⟩ := List.mem_map.mp hp2
  subst hf
  have hbase : p.2.countAdj = none ∧ p.2.denomAdj = none ∧ p.2.propAdj = none ∧
      p.2.seAdj = none ∧ p.2.lowerAdj = none ∧ p.2.upperAdj = none := by
    rw [← hmk]
    exact ⟨rfl, rfl, rfl, rfl, rfl, rfl⟩
  exact ⟨hbase.1, hbase.2.1, hbase.2.2.1, hbase.2.2.2.1, hbase.2.2.2.2.1,
    hbase.2.2.2.2.2, rfl⟩

/-- C10: a `PrevalenceCalculator` built with `adjust_for = []` behaves in
`calculate` exactly like one built with `adjust_for` absent: the result
tables are identical (so sorting uses the raw `[denominator, count]` pair,
since that is what the `adjust_for = None` branch sorts by), no `*.adj`
column appears in any result row, and no error is raised — the Python
truthiness guard `self.adjust_for[0] if self.adjust_for else None` treats
the empty list as no adjustment rather than indexing into it. -/
theorem empty_adjust_for_equals_none :
    ∀ (sb : List String) (nd : Option (List String)) (d : Option String) (z : ℝ)
      (data : List Row),
      (PrevalenceCalculator.calculate ⟨sb, some [], nd, d⟩ z data).rows
          = (PrevalenceCalculator.calculate ⟨sb, none, nd, d⟩ z data).rows ∧
      ∀ row ∈ (PrevalenceCalculator.calculate ⟨sb, some [], nd, d⟩ z data).rows,
        row.countAdj = none ∧ row.denomAdj = none ∧ row.propAdj = none ∧
        row.seAdj = none ∧ row.lowerAdj = none ∧ row.upperAdj = none ∧
        row.rankAdj = none := by
  intro sb nd d z data
  refine ⟨rfl, ?_⟩
  intro row hrow
  exact calculate_none_adj_fields sb nd d z data row hrow
